import Mathlib

/-!
Shallow embedding of the `lwm2m-registry` crate (files `src/lib.rs`,
`src/deserialize.rs`, `src/spec_files.rs`).

Machine integers (`u16`) are modelled as `Nat`; every place the code checks a
16-bit bound (`u16::from_str`) the bound `< 65536` is checked explicitly.
Strings are Lean `String`s; the byte/char level operations of `str::trim`,
`str::split` and `u16::from_str` are modelled on `List Char` (whitespace is
the ASCII whitespace set used by `Char.isWhitespace`).  Fallible code returns
`Except`.  The external collaborators of `spec_files.rs` (directory walking,
file IO, UTF-8 decoding and the XML data-format crate) are parameters of the
loader, collected in a `World` structure; the loader's own control flow is
modelled exactly.
-/

namespace Lwm2mRegistry

/-- Model of `Version` (lib.rs): two `u16` components. -/
structure Version where
  major : Nat
  minor : Nat
deriving DecidableEq, Repr

/-- Model of `ParseVersionError` (lib.rs). -/
structure ParseVersionError where
  msg : String
deriving DecidableEq, Repr

/-- `ParseVersionError::new` (lib.rs): formats the offending string into a message. -/
def ParseVersionError.new (s : String) : ParseVersionError :=
  ⟨"Could not parse string: " ++ s⟩

/-- The digit-accumulation loop of Rust `u16::from_str` (radix 10):
each ASCII digit is folded in with a checked multiply/add against the
`u16` bound; a non-digit character fails. -/
def parseU16Digits : Nat → List Char → Option Nat
  | acc, [] => some acc
  | acc, c :: rest =>
    if c.isDigit then
      let v := acc * 10 + (c.toNat - 48)
      if v < 65536 then parseU16Digits v rest else none
    else none

/-- Model of Rust `u16::from_str`: an empty string fails, a single `'+'`
fails, an optional leading `'+'` is skipped (a leading `'-'` is not accepted
for unsigned types and fails as a non-digit), and the remaining characters
must be ASCII digits whose value fits in 16 bits. -/
def parseU16 : List Char → Option Nat
  | [] => none
  | '+' :: [] => none
  | '+' :: rest => parseU16Digits 0 rest
  | cs => parseU16Digits 0 cs

/-- Model of `Version::parse_digit` (lib.rs): a missing segment yields the
`NO_VALUE` error, a segment that `u16::from_str` rejects yields the error
converted from `ParseIntError` (the exact message text is not modelled). -/
def Version.parse_digit (num : Option (List Char)) : Except ParseVersionError Nat :=
  match num with
  | some n =>
    match parseU16 n with
    | some v => Except.ok v
    | none => Except.error (ParseVersionError.new "PARSE_INT_ERROR")
  | none => Except.error (ParseVersionError.new "NO_VALUE")

/-- Model of Rust `str::trim`: drop whitespace from both ends. -/
def rustTrim (cs : List Char) : List Char :=
  ((cs.dropWhile Char.isWhitespace).reverse.dropWhile Char.isWhitespace).reverse

/-- Model of Rust `str::ends_with` with a literal pattern: the pattern's
characters are a suffix of the string's characters. -/
def rustEndsWith (s pat : String) : Bool :=
  pat.data.isSuffixOf s.data

/-- The body of `Version::from_str` (lib.rs) after the split: `count` is the
number of segments; one segment gives `{major, minor: 0}`, two give
`{major, minor}`, any other count yields `ParseVersionError::new(s)`;
segments are consumed in order through `parse_digit` and errors
short-circuit (`?`). -/
def Version.fromSegs (s : String) (numbers : List (List Char)) :
    Except ParseVersionError Version :=
  match numbers.length with
  | 1 =>
    match Version.parse_digit numbers[0]? with
    | Except.ok mj => Except.ok ⟨mj, 0⟩
    | Except.error e => Except.error e
  | 2 =>
    match Version.parse_digit numbers[0]? with
    | Except.ok mj =>
      match Version.parse_digit numbers[1]? with
      | Except.ok mn => Except.ok ⟨mj, mn⟩
      | Except.error e => Except.error e
    | Except.error e => Except.error e
  | _ => Except.error (ParseVersionError.new s)

/-- Model of `Version::from_str` (lib.rs): trim the input once, split on `'.'`,
then dispatch on the segment count. -/
def Version.from_str (s : String) : Except ParseVersionError Version :=
  Version.fromSegs s ((rustTrim s.data).splitOn '.')

/-- The derived `Ord` on `Version` (field order `major`, then `minor`),
exactly as `#[derive(PartialOrd, Ord)]` produces it. -/
def Version.cmp (a b : Version) : Ordering :=
  (compare a.major b.major).then (compare a.minor b.minor)

/-- `v1 < v2` for `Version`: the derived comparison returns `Less`. -/
def Version.ltb (a b : Version) : Bool :=
  Version.cmp a b == Ordering.lt

/-- `v1 <= v2` for `Version`: the derived comparison does not return `Greater`. -/
def Version.leb (a b : Version) : Bool :=
  !(Version.cmp a b == Ordering.gt)

/-- Model of `Operations` (lib.rs). -/
inductive Operations where
  | Read
  | Write
  | ReadWrite
  | Execute
  | None
deriving DecidableEq, Repr

/-- Model of `ResourceType` (lib.rs). -/
inductive ResourceType where
  | String
  | Integer
  | Float
  | Boolean
  | Opaque
  | Time
  | ObjectLink
  | UnsignedInteger
  | Corelink
  | Other
deriving DecidableEq, Repr

/-- Model of `Resource` (lib.rs). -/
structure Resource where
  id : Nat
  name : String
  operations : Operations
  has_multiple_instances : Bool
  is_mandatory : Bool
  resource_type : ResourceType
deriving DecidableEq, Repr

/-- Model of `Object` (lib.rs). -/
structure Object where
  name : String
  object_id : Nat
  object_urn : String
  object_version : Version
  lwm2m_version : Version
  has_multiple_instances : Bool
  is_mandatory : Bool
  resources : List Resource
deriving DecidableEq, Repr

/-- Model of `LwM2MSpec` (lib.rs): the list of objects of one document. -/
structure LwM2MSpec where
  objects : List Object
deriving DecidableEq, Repr

/-- Decode errors of the serde field decoders (deserialize.rs). -/
inductive DecodeError where
  | unknownVariant (value : String) (expected : List String)
  | other (msg : String)
deriving DecidableEq, Repr

/-- Model of `deserialize_multiple_instances` (deserialize.rs). -/
def deserialize_multiple_instances (s : String) : Except DecodeError Bool :=
  if s = "Multiple" then Except.ok true
  else if s = "Single" then Except.ok false
  else Except.error (DecodeError.unknownVariant s ["Multiple", "Single"])

/-- Model of `deserialize_mandatory` (deserialize.rs). -/
def deserialize_mandatory (s : String) : Except DecodeError Bool :=
  if s = "Mandatory" then Except.ok true
  else if s = "Optional" then Except.ok false
  else Except.error (DecodeError.unknownVariant s ["Mandatory", "Optional"])

/-- Model of `deserialize_operations` (deserialize.rs): total, never errors. -/
def deserialize_operations (s : String) : Except DecodeError Operations :=
  if s = "R" then Except.ok Operations.Read
  else if s = "W" then Except.ok Operations.Write
  else if s = "RW" then Except.ok Operations.ReadWrite
  else if s = "E" then Except.ok Operations.Execute
  else Except.ok Operations.None

/-- Model of `deserialize_resource_type` (deserialize.rs): total, never errors. -/
def deserialize_resource_type (s : String) : Except DecodeError ResourceType :=
  if s = "String" then Except.ok ResourceType.String
  else if s = "Integer" then Except.ok ResourceType.Integer
  else if s = "Float" then Except.ok ResourceType.Float
  else if s = "Boolean" then Except.ok ResourceType.Boolean
  else if s = "Opaque" then Except.ok ResourceType.Opaque
  else if s = "Time" then Except.ok ResourceType.Time
  else if s = "Objlnk" then Except.ok ResourceType.ObjectLink
  else if s = "Unsigned Integer" then Except.ok ResourceType.UnsignedInteger
  else if s = "Corelnk" then Except.ok ResourceType.Corelink
  else Except.ok ResourceType.Other

/-- The raw textual fields of one `<Item>` element, as seen by serde before
the field decoders run. -/
structure RawResource where
  id : Nat
  name : String
  operations : String
  multipleInstances : String
  mandatory : String
  resourceType : String
deriving DecidableEq, Repr

/-- serde's decoding of one `<Item>` into a `Resource`: each custom field
decoder runs and any failure fails the whole item. -/
def decodeResource (raw : RawResource) : Except DecodeError Resource :=
  match deserialize_operations raw.operations with
  | Except.error e => Except.error e
  | Except.ok ops =>
    match deserialize_multiple_instances raw.multipleInstances with
    | Except.error e => Except.error e
    | Except.ok multi =>
      match deserialize_mandatory raw.mandatory with
      | Except.error e => Except.error e
      | Except.ok mand =>
        match deserialize_resource_type raw.resourceType with
        | Except.error e => Except.error e
        | Except.ok ty => Except.ok ⟨raw.id, raw.name, ops, multi, mand, ty⟩

/-- serde's decoding of the `Item` child sequence (a `Vec<Resource>`),
element by element in document order, failing on the first bad item. -/
def decodeResourceList : List RawResource → Except DecodeError (List Resource)
  | [] => Except.ok []
  | raw :: rest =>
    match decodeResource raw with
    | Except.error e => Except.error e
    | Except.ok r =>
      match decodeResourceList rest with
      | Except.error e => Except.error e
      | Except.ok rs => Except.ok (r :: rs)

/-- Model of `deserialize_unwrap_resources_list` (deserialize.rs): the
`Resources` wrapper holds a `#[serde(default)] Item: Vec<Resource>` field,
so an absent `Item` sequence defaults to the empty list; otherwise the items
are decoded in document order and the flat list is returned. -/
def deserialize_unwrap_resources_list (item : Option (List RawResource)) :
    Except DecodeError (List Resource) :=
  match item with
  | none => Except.ok []
  | some raws => decodeResourceList raws

/-- The readable contents of one opened file (spec_files.rs): `read_to_end`
either fails or yields the raw bytes. -/
structure SpecFileData where
  readResult : Except String (List Nat)
deriving Repr

/-- One entry produced by the `WalkDir` traversal (spec_files.rs): its path,
whether it is a regular file, and the outcome of `File::open`. -/
structure DirEntry where
  path : String
  isFile : Bool
  openResult : Except String SpecFileData

/-- The external collaborators of `spec_files.rs`: the `WalkDir` traversal
(each directory yields a sequence of entries, any of which may be a
traversal error), `std::str::from_utf8`, and `serde_xml_rs::from_str`. -/
structure World where
  walk : String → List (Except String DirEntry)
  fromUtf8 : List Nat → Except String String
  fromXmlStr : String → Except String LwM2MSpec

/-- Model of `deserialize_spec_file` (spec_files.rs): read the whole file,
decode UTF-8, parse the XML document; each step short-circuits (`?`). -/
def deserialize_spec_file (w : World) (file : SpecFileData) :
    Except String LwM2MSpec :=
  match file.readResult with
  | Except.error e => Except.error e
  | Except.ok contents =>
    match w.fromUtf8 contents with
    | Except.error e => Except.error e
    | Except.ok text =>
      match w.fromXmlStr text with
      | Except.error e => Except.error e
      | Except.ok item => Except.ok item

/-- The inner loop of `load` (spec_files.rs) over the entries of one
directory: a traversal error aborts (`entry?`); a regular file whose path
ends in `.xml` is opened and decoded, open/decode failures are swallowed
(`if let Ok`), and decoded objects are appended in order. -/
def loadEntries (w : World) (acc : List Object) :
    List (Except String DirEntry) → Except String (List Object)
  | [] => Except.ok acc
  | e :: rest =>
    match e with
    | Except.error err => Except.error err
    | Except.ok entry =>
      let acc :=
        if entry.isFile && rustEndsWith entry.path ".xml" then
          match entry.openResult with
          | Except.ok file =>
            match deserialize_spec_file w file with
            | Except.ok spec => acc ++ spec.objects
            | Except.error _ => acc
          | Except.error _ => acc
        else acc
      loadEntries w acc rest

/-- The outer loop of `load` (spec_files.rs) over the given directories. -/
def loadDirs (w : World) (acc : List Object) :
    List String → Except String (List Object)
  | [] => Except.ok acc
  | d :: rest =>
    match loadEntries w acc (w.walk d) with
    | Except.ok acc2 => loadDirs w acc2 rest
    | Except.error e => Except.error e

/-- Model of `load` (spec_files.rs). -/
def load (w : World) (directories : List String) : Except String (List Object) :=
  loadDirs w [] directories

/-- The per-entry contribution to a successful load: a non-file or
non-`.xml` entry, a file that fails to open, and a file that fails to
decode all contribute nothing; a decoded document contributes its objects. -/
def entryObjects (w : World) (entry : DirEntry) : List Object :=
  if entry.isFile && rustEndsWith entry.path ".xml" then
    match entry.openResult with
    | Except.ok file =>
      match deserialize_spec_file w file with
      | Except.ok spec => spec.objects
      | Except.error _ => []
    | Except.error _ => []
  else []

/-- Model of `Registry` (lib.rs). -/
structure Registry where
  directories : List String
  objects : List Object

/-- Model of `Registry::init` (lib.rs): run the loader; on success store the
directories and the loaded objects, on failure propagate the error (`?`). -/
def Registry.init (w : World) (directories : List String) :
    Except String Registry :=
  match load w directories with
  | Except.ok objects => Except.ok ⟨directories, objects⟩
  | Except.error e => Except.error e

/-- Model of `Registry::reload` (lib.rs): re-run the loader over the stored
directories; `?` returns the error before the assignment, so on failure the
registry state is untouched; on success the whole collection is replaced. -/
def Registry.reload (w : World) (r : Registry) : Registry × Except String Unit :=
  match load w r.directories with
  | Except.ok objects => ({ r with objects := objects }, Except.ok ())
  | Except.error e => (r, Except.error e)

/-- Model of `Registry::has_object_id` (lib.rs). -/
def Registry.has_object_id (r : Registry) (object_id : Nat) (version : Version) : Bool :=
  r.objects.any (fun o => o.object_id == object_id && o.object_version == version)

/-- Model of `Registry::get_object_by_id` (lib.rs): first match in load order. -/
def Registry.get_object_by_id (r : Registry) (object_id : Nat) (version : Version) :
    Option Object :=
  r.objects.find? (fun o => o.object_id == object_id && o.object_version == version)

/-- Model of `Registry::get_object_name` (lib.rs). -/
def Registry.get_object_name (r : Registry) (object_id : Nat) (version : Version) :
    Option String :=
  match r.get_object_by_id object_id version with
  | some obj => some obj.name
  | none => none

/-- Model of `Registry::get_object_urn` (lib.rs). -/
def Registry.get_object_urn (r : Registry) (object_id : Nat) (version : Version) :
    Option String :=
  match r.get_object_by_id object_id version with
  | some obj => some obj.object_urn
  | none => none

/-- Model of `Registry::get_resource_by_id` (lib.rs): look in the first
matching object only. -/
def Registry.get_resource_by_id (r : Registry) (object_id : Nat) (version : Version)
    (resource_id : Nat) : Option Resource :=
  match r.get_object_by_id object_id version with
  | some obj => obj.resources.find? (fun x => x.id == resource_id)
  | none => none

/-- Model of `Registry::get_resource_name` (lib.rs). -/
def Registry.get_resource_name (r : Registry) (object_id : Nat) (version : Version)
    (resource_id : Nat) : Option String :=
  match r.get_resource_by_id object_id version resource_id with
  | some res => some res.name
  | none => none

/-- Model of `Registry::get_resource_id_by_name` (lib.rs). -/
def Registry.get_resource_id_by_name (r : Registry) (object_id : Nat) (version : Version)
    (resource_name : String) : Option Nat :=
  match r.get_object_by_id object_id version with
  | some obj =>
    match obj.resources.find? (fun x => x.name == resource_name) with
    | some res => some res.id
    | none => none
  | none => none

/-- Model of `Registry::get_resource_type` (lib.rs). -/
def Registry.get_resource_type (r : Registry) (object_id : Nat) (version : Version)
    (resource_id : Nat) : Option ResourceType :=
  match r.get_resource_by_id object_id version resource_id with
  | some res => some res.resource_type
  | none => none

/-- Model of `Registry::is_resource_multi_instance` (lib.rs). -/
def Registry.is_resource_multi_instance (r : Registry) (object_id : Nat) (version : Version)
    (resource_id : Nat) : Option Bool :=
  match r.get_resource_by_id object_id version resource_id with
  | some res => some res.has_multiple_instances
  | none => none

/-- The `<=` ordering on objects by `object_version`, the key relation of
`objs.sort_by_key(|o| &o.object_version)` (lib.rs). -/
def objVerLe (a b : Object) : Prop :=
  Version.leb a.object_version b.object_version = true

instance : DecidableRel objVerLe := fun a b => instDecidableEqBool _ _

/-- Model of `Registry::get_object_id_by_name_newest` (lib.rs): filter by
name, sort ascending by version with a stable sort (Rust `sort_by_key` is
stable; `List.insertionSort` is the stable sort used to model it), and
`pop` the last element. -/
def Registry.get_object_id_by_name_newest (r : Registry) (name : String) :
    Option (Nat × Version) :=
  let objs := r.objects.filter (fun o => o.name == name)
  let objs := List.insertionSort objVerLe objs
  match objs.getLast? with
  | some obj => some (obj.object_id, obj.object_version)
  | none => none

/-- Model of `Registry::get_object_ids` (lib.rs). -/
def Registry.get_object_ids (r : Registry) : List (Nat × Version) :=
  r.objects.map (fun o => (o.object_id, o.object_version))

/-- The running maximum-by-version with replace-on-tie: after a stable
ascending sort by version, the last element is the last-encountered entry
among those of maximal version.  Used to characterise
`get_object_id_by_name_newest`. -/
def lastMaxAux (b : Object) : List Object → Object
  | [] => b
  | x :: l => lastMaxAux (if objVerLe b x then x else b) l

/-- `lastMaxAux` lifted to a possibly empty list. -/
def lastMax? : List Object → Option Object
  | [] => none
  | b :: l => some (lastMaxAux b l)

/-- The contribution of one traversal entry to a successful load (zero
objects for a traversal error position, `entryObjects` otherwise). -/
def entryContribution (w : World) (e : Except String DirEntry) : List Object :=
  match e with
  | Except.ok entry => entryObjects w entry
  | Except.error _ => []

/-- A sample object used to exercise the loader on concrete worlds. -/
def sampleObject : Object := ⟨"W", 2, "urn:w", ⟨1, 0⟩, ⟨1, 0⟩, false, false, []⟩

/-- A concrete world: one directory `root` holding an unopenable `.xml`
file, a well-formed `.xml` file and a non-`.xml` file. -/
def sampleWorld : World where
  walk := fun d =>
    if d = "root" then
      [Except.ok ⟨"bad.xml", true, Except.error "open failed"⟩,
       Except.ok ⟨"good.xml", true, Except.ok ⟨Except.ok [103]⟩⟩,
       Except.ok ⟨"notes.txt", true, Except.ok ⟨Except.ok [104]⟩⟩]
    else []
  fromUtf8 := fun bs => if bs = [103] then Except.ok "g" else Except.error "utf8"
  fromXmlStr := fun t =>
    if t = "g" then Except.ok ⟨[sampleObject]⟩ else Except.error "xml"

/-- A concrete world whose directory traversal fails on every directory. -/
def errorWorld : World where
  walk := fun _ => [Except.error "walk error"]
  fromUtf8 := fun _ => Except.error "utf8"
  fromXmlStr := fun _ => Except.error "xml"

/-! ## Ordering lemmas for `Version` -/

theorem Version.cmp_lt_iff (a b : Version) : Version.cmp a b = Ordering.lt ↔
    a.major < b.major ∨ (a.major = b.major ∧ a.minor < b.minor) := by
  unfold Version.cmp
  rcases Nat.lt_trichotomy a.major b.major with h | h | h
  · rw [Nat.compare_eq_lt.mpr h]
    simp [Ordering.then, h]
  · rw [Nat.compare_eq_eq.mpr h]
    show compare a.minor b.minor = Ordering.lt ↔ _
    rw [Nat.compare_eq_lt]
    constructor
    · intro hm
      exact Or.inr ⟨h, hm⟩
    · rintro (hmaj | ⟨_, hm⟩)
      · omega
      · exact hm
  · rw [Nat.compare_eq_gt.mpr h]
    show Ordering.gt = Ordering.lt ↔ _
    constructor
    · intro hc
      cases hc
    · rintro (hmaj | ⟨heq, _⟩) <;> omega

theorem Version.cmp_gt_iff (a b : Version) : Version.cmp a b = Ordering.gt ↔
    b.major < a.major ∨ (b.major = a.major ∧ b.minor < a.minor) := by
  unfold Version.cmp
  rcases Nat.lt_trichotomy a.major b.major with h | h | h
  · rw [Nat.compare_eq_lt.mpr h]
    show Ordering.lt = Ordering.gt ↔ _
    constructor
    · intro hc
      cases hc
    · rintro (hmaj | ⟨heq, _⟩) <;> omega
  · rw [Nat.compare_eq_eq.mpr h]
    show compare a.minor b.minor = Ordering.gt ↔ _
    rw [Nat.compare_eq_gt]
    constructor
    · intro hm
      exact Or.inr ⟨h.symm, hm⟩
    · rintro (hmaj | ⟨_, hm⟩)
      · omega
      · exact hm
  · rw [Nat.compare_eq_gt.mpr h]
    simp [Ordering.then, h]

theorem ordering_beq_true_iff (o o' : Ordering) : (o == o') = true ↔ o = o' := by
  cases o <;> cases o' <;> decide

theorem Version.ltb_iff (a b : Version) : Version.ltb a b = true ↔
    a.major < b.major ∨ (a.major = b.major ∧ a.minor < b.minor) := by
  unfold Version.ltb
  rw [ordering_beq_true_iff]
  exact Version.cmp_lt_iff a b

theorem ordering_beq_false_iff (o o' : Ordering) : (o == o') = false ↔ o ≠ o' := by
  cases o <;> cases o' <;> decide

theorem Version.leb_iff (a b : Version) : Version.leb a b = true ↔
    a.major < b.major ∨ (a.major = b.major ∧ a.minor ≤ b.minor) := by
  unfold Version.leb
  rw [Bool.not_eq_true', ordering_beq_false_iff]
  constructor
  · intro h
    rcases Nat.lt_trichotomy a.major b.major with hm | hm | hm
    · exact Or.inl hm
    · rcases Nat.lt_or_ge b.minor a.minor with hn | hn
      · exact absurd (Version.cmp_gt_iff a b |>.mpr (Or.inr ⟨hm.symm, hn⟩)) h
      · exact Or.inr ⟨hm, hn⟩
    · exact absurd (Version.cmp_gt_iff a b |>.mpr (Or.inl hm)) h
  · intro h hgt
    rcases Version.cmp_gt_iff a b |>.mp hgt with hm | ⟨hm, hn⟩ <;> omega

end Lwm2mRegistry

/-- C7: the derived `Version` ordering is the strict lexicographic order on
(major, minor): `v1 < v2` holds exactly when `v1.major < v2.major`, or the
majors are equal and `v1.minor < v2.minor`; for every pair exactly one of
`v1 < v2`, `v1 = v2`, `v1 > v2` holds; in particular
`Version(1,1) < Version(1,2) < Version(2,0)`. -/
theorem claim_version_total_order :
    (∀ v1 v2 : Lwm2mRegistry.Version,
      Lwm2mRegistry.Version.ltb v1 v2 = true ↔
        v1.major < v2.major ∨ (v1.major = v2.major ∧ v1.minor < v2.minor)) ∧
    (∀ v1 v2 : Lwm2mRegistry.Version,
      (Lwm2mRegistry.Version.ltb v1 v2 = true ∧ v1 ≠ v2 ∧
          Lwm2mRegistry.Version.ltb v2 v1 = false) ∨
      (Lwm2mRegistry.Version.ltb v1 v2 = false ∧ v1 = v2 ∧
          Lwm2mRegistry.Version.ltb v2 v1 = false) ∨
      (Lwm2mRegistry.Version.ltb v1 v2 = false ∧ v1 ≠ v2 ∧
          Lwm2mRegistry.Version.ltb v2 v1 = true)) ∧
    Lwm2mRegistry.Version.ltb ⟨1, 1⟩ ⟨1, 2⟩ = true ∧
    Lwm2mRegistry.Version.ltb ⟨1, 2⟩ ⟨2, 0⟩ = true := by
  refine ⟨Lwm2mRegistry.Version.ltb_iff, ?_, by decide, by decide⟩
  intro v1 v2
  obtain ⟨a1, b1⟩ := v1
  obtain ⟨a2, b2⟩ := v2
  have h12 := Lwm2mRegistry.Version.ltb_iff ⟨a1, b1⟩ ⟨a2, b2⟩
  have h21 := Lwm2mRegistry.Version.ltb_iff ⟨a2, b2⟩ ⟨a1, b1⟩
  dsimp only at h12 h21
  have hlt : (a1 < a2 ∨ (a1 = a2 ∧ b1 < b2)) ∨ (a1 = a2 ∧ b1 = b2) ∨
      (a2 < a1 ∨ (a2 = a1 ∧ b2 < b1)) := by omega
  rcases hlt with h | h | h
  · refine Or.inl ⟨h12.mpr h, ?_, ?_⟩
    · intro he
      cases he
      rcases h with hm | ⟨hm, hn⟩ <;> omega
    · rw [Bool.eq_false_iff]
      intro hc
      rcases h21.mp hc with hm | ⟨hm, hn⟩ <;>
        rcases h with hm2 | ⟨hm2, hn2⟩ <;> omega
  · refine Or.inr (Or.inl ⟨?_, ?_, ?_⟩)
    · rw [Bool.eq_false_iff]
      intro hc
      rcases h12.mp hc with hm | ⟨hm, hn⟩ <;> omega
    · rw [h.1, h.2]
    · rw [Bool.eq_false_iff]
      intro hc
      rcases h21.mp hc with hm | ⟨hm, hn⟩ <;> omega
  · refine Or.inr (Or.inr ⟨?_, ?_, ?_⟩)
    · rw [Bool.eq_false_iff]
      intro hc
      rcases h12.mp hc with hm | ⟨hm, hn⟩ <;>
        rcases h with hm2 | ⟨hm2, hn2⟩ <;> omega
    · intro he
      cases he
      rcases h with hm | ⟨hm, hn⟩ <;> omega
    · exact h21.mpr h

namespace Lwm2mRegistry

/-! ## Computation lemmas for `Version.fromSegs` and `parse_digit` -/

theorem fromSegs_one (s : String) (x : List Char) :
    Version.fromSegs s [x] = match Version.parse_digit (some x) with
      | Except.ok mj => Except.ok ⟨mj, 0⟩
      | Except.error e => Except.error e := rfl

theorem fromSegs_two (s : String) (x y : List Char) :
    Version.fromSegs s [x, y] = match Version.parse_digit (some x) with
      | Except.ok mj =>
        match Version.parse_digit (some y) with
        | Except.ok mn => Except.ok ⟨mj, mn⟩
        | Except.error e => Except.error e
      | Except.error e => Except.error e := rfl

theorem fromSegs_ne (s : String) (numbers : List (List Char))
    (h : numbers.length = 0 ∨ 3 ≤ numbers.length) :
    Version.fromSegs s numbers = Except.error (ParseVersionError.new s) := by
  rcases numbers with _ | ⟨x, _ | ⟨y, _ | ⟨z, t⟩⟩⟩
  · rfl
  · rcases h with h | h <;> simp at h
  · rcases h with h | h <;> simp at h
  · rfl

theorem parse_digit_some_ok (x : List Char) (n : Nat) (h : parseU16 x = some n) :
    Version.parse_digit (some x) = Except.ok n := by
  show (match parseU16 x with
    | some v => Except.ok v
    | none => Except.error (ParseVersionError.new "PARSE_INT_ERROR")) = Except.ok n
  rw [h]

theorem parse_digit_some_err (x : List Char) (h : parseU16 x = none) :
    Version.parse_digit (some x) =
      Except.error (ParseVersionError.new "PARSE_INT_ERROR") := by
  show (match parseU16 x with
    | some v => Except.ok v
    | none => Except.error (ParseVersionError.new "PARSE_INT_ERROR")) =
    Except.error (ParseVersionError.new "PARSE_INT_ERROR")
  rw [h]

end Lwm2mRegistry

/-- C1: `Version::from_str` trims the input once, splits on `'.'`, and then:
exactly one segment that parses as an unsigned 16-bit integer `n` yields
`{major := n, minor := 0}`; exactly two segments that both parse yield
`{major := first, minor := second}`; zero or three-or-more segments, or any
segment rejected by the unsigned 16-bit parser, yield a version-parse
error. -/
theorem claim_version_parse (s : String) :
    (∀ x, (Lwm2mRegistry.rustTrim s.data).splitOn '.' = [x] →
      (∀ n, Lwm2mRegistry.parseU16 x = some n →
        Lwm2mRegistry.Version.from_str s = Except.ok ⟨n, 0⟩) ∧
      (Lwm2mRegistry.parseU16 x = none →
        ∃ e, Lwm2mRegistry.Version.from_str s = Except.error e)) ∧
    (∀ x y, (Lwm2mRegistry.rustTrim s.data).splitOn '.' = [x, y] →
      (∀ m n, Lwm2mRegistry.parseU16 x = some m → Lwm2mRegistry.parseU16 y = some n →
        Lwm2mRegistry.Version.from_str s = Except.ok ⟨m, n⟩) ∧
      (Lwm2mRegistry.parseU16 x = none ∨ Lwm2mRegistry.parseU16 y = none →
        ∃ e, Lwm2mRegistry.Version.from_str s = Except.error e)) ∧
    (((Lwm2mRegistry.rustTrim s.data).splitOn '.').length = 0 ∨
        3 ≤ ((Lwm2mRegistry.rustTrim s.data).splitOn '.').length →
      ∃ e, Lwm2mRegistry.Version.from_str s = Except.error e) := by
  refine ⟨?_, ?_, ?_⟩
  · intro x hx
    constructor
    · intro n hn
      rw [Lwm2mRegistry.Version.from_str, hx, Lwm2mRegistry.fromSegs_one,
        Lwm2mRegistry.parse_digit_some_ok x n hn]
    · intro hn
      refine ⟨Lwm2mRegistry.ParseVersionError.new "PARSE_INT_ERROR", ?_⟩
      rw [Lwm2mRegistry.Version.from_str, hx, Lwm2mRegistry.fromSegs_one,
        Lwm2mRegistry.parse_digit_some_err x hn]
  · intro x y hx
    constructor
    · intro m n hm hn
      rw [Lwm2mRegistry.Version.from_str, hx, Lwm2mRegistry.fromSegs_two,
        Lwm2mRegistry.parse_digit_some_ok x m hm,
        Lwm2mRegistry.parse_digit_some_ok y n hn]
    · intro hor
      rcases hor with hn | hn
      · refine ⟨Lwm2mRegistry.ParseVersionError.new "PARSE_INT_ERROR", ?_⟩
        rw [Lwm2mRegistry.Version.from_str, hx, Lwm2mRegistry.fromSegs_two,
          Lwm2mRegistry.parse_digit_some_err x hn]
      · cases hm : Lwm2mRegistry.parseU16 x with
        | none =>
          refine ⟨Lwm2mRegistry.ParseVersionError.new "PARSE_INT_ERROR", ?_⟩
          rw [Lwm2mRegistry.Version.from_str, hx, Lwm2mRegistry.fromSegs_two,
            Lwm2mRegistry.parse_digit_some_err x hm]
        | some m =>
          refine ⟨Lwm2mRegistry.ParseVersionError.new "PARSE_INT_ERROR", ?_⟩
          rw [Lwm2mRegistry.Version.from_str, hx, Lwm2mRegistry.fromSegs_two,
            Lwm2mRegistry.parse_digit_some_ok x m hm,
            Lwm2mRegistry.parse_digit_some_err y hn]
  · intro h
    refine ⟨Lwm2mRegistry.ParseVersionError.new s, ?_⟩
    rw [Lwm2mRegistry.Version.from_str, Lwm2mRegistry.fromSegs_ne s _ h]

/-- Witness for C1 at the concrete inputs "1.2" and "7": both hypotheses
shapes are discharged concretely. -/
theorem claim_version_parse_witness :
    Lwm2mRegistry.Version.from_str "1.2" = Except.ok ⟨1, 2⟩ ∧
    Lwm2mRegistry.Version.from_str "7" = Except.ok ⟨7, 0⟩ ∧
    ∃ e, Lwm2mRegistry.Version.from_str "1.2.3" = Except.error e := by
  refine ⟨?_, ?_, ?_⟩
  · exact ((claim_version_parse "1.2").2.1 ['1'] ['2'] (by decide)).1 1 2
      (by decide) (by decide)
  · exact ((claim_version_parse "7").1 ['7'] (by decide)).1 7 (by decide)
  · exact (claim_version_parse "1.2.3").2.2 (by decide)

/-- C10: `Version` parsing accepts a leading `'+'` inside a segment, because
each segment goes through the standard unsigned-integer string parser:
`"+1.2"`, which is not made of digits only, parses to `{major 1, minor 2}`. -/
theorem claim_version_parse_plus_sign :
    (∃ c ∈ "+1.2".data, ¬ c.isDigit) ∧
    Lwm2mRegistry.Version.from_str "+1.2" = Except.ok ⟨1, 2⟩ := by
  constructor
  · exact ⟨'+', by decide, by decide⟩
  · rfl

/-- C4: the multiplicity and mandatory decoders are strict — exactly their
two codes map to `true`/`false` and every other string is an
unknown-variant decode error — while the operations and resource-type
decoders are lenient: the listed codes map to their variants and every
other string degrades to `None` / `Other` without ever returning an
error. -/
theorem claim_decoder_policy (s : String) :
    (Lwm2mRegistry.deserialize_multiple_instances "Multiple" = Except.ok true) ∧
    (Lwm2mRegistry.deserialize_multiple_instances "Single" = Except.ok false) ∧
    (s ≠ "Multiple" → s ≠ "Single" →
      Lwm2mRegistry.deserialize_multiple_instances s =
        Except.error (Lwm2mRegistry.DecodeError.unknownVariant s ["Multiple", "Single"])) ∧
    (Lwm2mRegistry.deserialize_mandatory "Mandatory" = Except.ok true) ∧
    (Lwm2mRegistry.deserialize_mandatory "Optional" = Except.ok false) ∧
    (s ≠ "Mandatory" → s ≠ "Optional" →
      Lwm2mRegistry.deserialize_mandatory s =
        Except.error (Lwm2mRegistry.DecodeError.unknownVariant s ["Mandatory", "Optional"])) ∧
    (Lwm2mRegistry.deserialize_operations "R" = Except.ok Lwm2mRegistry.Operations.Read) ∧
    (Lwm2mRegistry.deserialize_operations "W" = Except.ok Lwm2mRegistry.Operations.Write) ∧
    (Lwm2mRegistry.deserialize_operations "RW" = Except.ok Lwm2mRegistry.Operations.ReadWrite) ∧
    (Lwm2mRegistry.deserialize_operations "E" = Except.ok Lwm2mRegistry.Operations.Execute) ∧
    (s ≠ "R" → s ≠ "W" → s ≠ "RW" → s ≠ "E" →
      Lwm2mRegistry.deserialize_operations s = Except.ok Lwm2mRegistry.Operations.None) ∧
    (∃ op, Lwm2mRegistry.deserialize_operations s = Except.ok op) ∧
    (Lwm2mRegistry.deserialize_resource_type "String" =
      Except.ok Lwm2mRegistry.ResourceType.String) ∧
    (Lwm2mRegistry.deserialize_resource_type "Integer" =
      Except.ok Lwm2mRegistry.ResourceType.Integer) ∧
    (Lwm2mRegistry.deserialize_resource_type "Float" =
      Except.ok Lwm2mRegistry.ResourceType.Float) ∧
    (Lwm2mRegistry.deserialize_resource_type "Boolean" =
      Except.ok Lwm2mRegistry.ResourceType.Boolean) ∧
    (Lwm2mRegistry.deserialize_resource_type "Opaque" =
      Except.ok Lwm2mRegistry.ResourceType.Opaque) ∧
    (Lwm2mRegistry.deserialize_resource_type "Time" =
      Except.ok Lwm2mRegistry.ResourceType.Time) ∧
    (Lwm2mRegistry.deserialize_resource_type "Objlnk" =
      Except.ok Lwm2mRegistry.ResourceType.ObjectLink) ∧
    (Lwm2mRegistry.deserialize_resource_type "Unsigned Integer" =
      Except.ok Lwm2mRegistry.ResourceType.UnsignedInteger) ∧
    (Lwm2mRegistry.deserialize_resource_type "Corelnk" =
      Except.ok Lwm2mRegistry.ResourceType.Corelink) ∧
    (s ≠ "String" → s ≠ "Integer" → s ≠ "Float" → s ≠ "Boolean" → s ≠ "Opaque" →
      s ≠ "Time" → s ≠ "Objlnk" → s ≠ "Unsigned Integer" → s ≠ "Corelnk" →
      Lwm2mRegistry.deserialize_resource_type s = Except.ok Lwm2mRegistry.ResourceType.Other) ∧
    (∃ ty, Lwm2mRegistry.deserialize_resource_type s = Except.ok ty) := by
  refine ⟨rfl, rfl, ?_, rfl, rfl, ?_, rfl, rfl, rfl, rfl, ?_, ?_, rfl, rfl, rfl, rfl,
    rfl, rfl, rfl, rfl, rfl, ?_, ?_⟩
  · intro h1 h2
    simp [Lwm2mRegistry.deserialize_multiple_instances, h1, h2]
  · intro h1 h2
    simp [Lwm2mRegistry.deserialize_mandatory, h1, h2]
  · intro h1 h2 h3 h4
    simp [Lwm2mRegistry.deserialize_operations, h1, h2, h3, h4]
  · unfold Lwm2mRegistry.deserialize_operations
    split
    · exact ⟨_, rfl⟩
    · split
      · exact ⟨_, rfl⟩
      · split
        · exact ⟨_, rfl⟩
        · split
          · exact ⟨_, rfl⟩
          · exact ⟨_, rfl⟩
  · intro h1 h2 h3 h4 h5 h6 h7 h8 h9
    simp [Lwm2mRegistry.deserialize_resource_type, h1, h2, h3, h4, h5, h6, h7, h8, h9]
  · unfold Lwm2mRegistry.deserialize_resource_type
    repeat' split
    all_goals exact ⟨_, rfl⟩

/-- Witness for C4 at the concrete unknown code "Bogus": the strict decoders
error, the lenient decoders fall back to their sentinel variants. -/
theorem claim_decoder_policy_witness :
    Lwm2mRegistry.deserialize_multiple_instances "Bogus" =
      Except.error (Lwm2mRegistry.DecodeError.unknownVariant "Bogus" ["Multiple", "Single"]) ∧
    Lwm2mRegistry.deserialize_mandatory "Bogus" =
      Except.error (Lwm2mRegistry.DecodeError.unknownVariant "Bogus" ["Mandatory", "Optional"]) ∧
    Lwm2mRegistry.deserialize_operations "Bogus" = Except.ok Lwm2mRegistry.Operations.None ∧
    Lwm2mRegistry.deserialize_resource_type "Bogus" =
      Except.ok Lwm2mRegistry.ResourceType.Other := by
  have h := claim_decoder_policy "Bogus"
  refine ⟨h.2.2.1 (by decide) (by decide), ?_, ?_, ?_⟩
  · exact h.2.2.2.2.2.1 (by decide) (by decide)
  · exact h.2.2.2.2.2.2.2.2.2.2.1 (by decide) (by decide) (by decide) (by decide)
  · exact h.2.2.2.2.2.2.2.2.2.2.2.2.2.2.2.2.2.2.2.2.2.1 (by decide) (by decide)
      (by decide) (by decide) (by decide) (by decide) (by decide) (by decide) (by decide)

namespace Lwm2mRegistry

/-- Element-wise characterisation of a successful `Item` list decode: the
output has the input's length and position `i` of the output is the decode
of position `i` of the input. -/
theorem decodeResourceList_ok_elems (raws : List RawResource) (rs : List Resource)
    (h : decodeResourceList raws = Except.ok rs) :
    rs.length = raws.length ∧
    ∀ i, (h1 : i < raws.length) → (h2 : i < rs.length) →
      decodeResource (raws.get ⟨i, h1⟩) = Except.ok (rs.get ⟨i, h2⟩) := by
  induction raws generalizing rs with
  | nil =>
    simp only [decodeResourceList] at h
    injection h with h
    subst h
    exact ⟨rfl, fun i h1 h2 => absurd h1 (by simp)⟩
  | cons raw rest ih =>
    cases hr : decodeResource raw with
    | error e =>
      simp only [decodeResourceList, hr] at h
      exact Except.noConfusion h
    | ok r =>
      cases hrest : decodeResourceList rest with
      | error e =>
        simp only [decodeResourceList, hr, hrest] at h
        exact Except.noConfusion h
      | ok rs2 =>
        simp only [decodeResourceList, hr, hrest] at h
        injection h with h
        subst h
        obtain ⟨hlen, helem⟩ := ih rs2 hrest
        refine ⟨by simp [hlen], ?_⟩
        intro i h1 h2
        cases i with
        | zero => simpa using hr
        | succ j => exact helem j (by simpa using h1) (by simpa using h2)

end Lwm2mRegistry

/-- C8: decoding a `Resources` wrapper whose `Item` child sequence is absent
or empty succeeds with the empty resource sequence; otherwise it yields the
flat sequence of the decoded `Item` children in document order. -/
theorem claim_resources_unwrap :
    (Lwm2mRegistry.deserialize_unwrap_resources_list none = Except.ok []) ∧
    (Lwm2mRegistry.deserialize_unwrap_resources_list (some []) = Except.ok []) ∧
    (∀ raws rs, Lwm2mRegistry.decodeResourceList raws = Except.ok rs →
      Lwm2mRegistry.deserialize_unwrap_resources_list (some raws) = Except.ok rs ∧
      rs.length = raws.length ∧
      (∀ i, (h1 : i < raws.length) → (h2 : i < rs.length) →
        Lwm2mRegistry.decodeResource (raws.get ⟨i, h1⟩) = Except.ok (rs.get ⟨i, h2⟩))) := by
  refine ⟨rfl, rfl, ?_⟩
  intro raws rs h
  exact ⟨h, Lwm2mRegistry.decodeResourceList_ok_elems raws rs h⟩

/-- Witness for C8 at a concrete one-item list. -/
theorem claim_resources_unwrap_witness :
    Lwm2mRegistry.deserialize_unwrap_resources_list
        (some [⟨3, "Level", "R", "Single", "Mandatory", "Integer"⟩]) =
      Except.ok [⟨3, "Level", Lwm2mRegistry.Operations.Read, false, true,
        Lwm2mRegistry.ResourceType.Integer⟩] :=
  (claim_resources_unwrap.2.2 _ _ (by rfl)).1

namespace Lwm2mRegistry

/-- `find?` returns the first element satisfying the predicate: there is an
index holding the result and every earlier index fails the predicate. -/
theorem find?_first_index {α : Type} (p : α → Bool) (l : List α) (a : α)
    (h : l.find? p = some a) :
    ∃ i, ∃ hi : i < l.length, l.get ⟨i, hi⟩ = a ∧ p a = true ∧
      ∀ j, (hj : j < l.length) → j < i → p (l.get ⟨j, hj⟩) = false := by
  induction l with
  | nil => simp [List.find?] at h
  | cons x t ih =>
    by_cases hx : p x = true
    · rw [List.find?_cons_of_pos t hx] at h
      injection h with h
      subst h
      exact ⟨0, by simp, rfl, hx, fun j hj hj0 => absurd hj0 (by omega)⟩
    · rw [List.find?_cons_of_neg t hx] at h
      obtain ⟨i, hi, hget, hpa, hprev⟩ := ih h
      refine ⟨i + 1, by simpa using hi, by simpa using hget, hpa, ?_⟩
      intro j hj hlt
      cases j with
      | zero => simpa using hx
      | succ k => exact hprev k (by simpa using hj) (by omega)

end Lwm2mRegistry

/-- C6: `get_object_by_id(id, version)` returns the first object in load
order that matches both the id and the version, and is absent (never an
error) when no object matches; `has_object_id(id, version)` is true exactly
when a match exists, i.e. exactly when `get_object_by_id` is present. -/
theorem claim_lookup_first_match (r : Lwm2mRegistry.Registry) (oid : Nat)
    (v : Lwm2mRegistry.Version) :
    (r.has_object_id oid v = true ↔
      ∃ o ∈ r.objects, o.object_id = oid ∧ o.object_version = v) ∧
    (r.has_object_id oid v = (r.get_object_by_id oid v).isSome) ∧
    (∀ o, r.get_object_by_id oid v = some o →
      o.object_id = oid ∧ o.object_version = v ∧
      ∃ i, ∃ hi : i < r.objects.length, r.objects.get ⟨i, hi⟩ = o ∧
        ∀ j, (hj : j < r.objects.length) → j < i →
          ¬((r.objects.get ⟨j, hj⟩).object_id = oid ∧
            (r.objects.get ⟨j, hj⟩).object_version = v)) ∧
    (r.get_object_by_id oid v = none ↔
      ∀ o ∈ r.objects, ¬(o.object_id = oid ∧ o.object_version = v)) := by
  refine ⟨?_, ?_, ?_, ?_⟩
  · rw [Lwm2mRegistry.Registry.has_object_id, List.any_eq_true]
    constructor
    · rintro ⟨o, hmem, hp⟩
      rw [Bool.and_eq_true, beq_iff_eq, beq_iff_eq] at hp
      exact ⟨o, hmem, hp⟩
    · rintro ⟨o, hmem, h1, h2⟩
      exact ⟨o, hmem, by rw [Bool.and_eq_true, beq_iff_eq, beq_iff_eq]; exact ⟨h1, h2⟩⟩
  · rw [Lwm2mRegistry.Registry.has_object_id, Lwm2mRegistry.Registry.get_object_by_id,
      Bool.eq_iff_iff, List.any_eq_true, List.find?_isSome]
  · intro o ho
    rw [Lwm2mRegistry.Registry.get_object_by_id] at ho
    have hp := List.find?_some ho
    rw [Bool.and_eq_true, beq_iff_eq, beq_iff_eq] at hp
    obtain ⟨i, hi, hget, _, hprev⟩ := Lwm2mRegistry.find?_first_index _ _ _ ho
    refine ⟨hp.1, hp.2, i, hi, hget, ?_⟩
    intro j hj hlt hcontra
    have hfalse := hprev j hj hlt
    rw [hcontra.1, hcontra.2] at hfalse
    simp at hfalse
  · rw [Lwm2mRegistry.Registry.get_object_by_id, List.find?_eq_none]
    constructor
    · intro hall o hmem hcontra
      have := hall o hmem
      rw [Bool.and_eq_true, beq_iff_eq, beq_iff_eq] at this
      exact this ⟨hcontra.1, hcontra.2⟩
    · intro hall o hmem
      rw [Bool.and_eq_true, beq_iff_eq, beq_iff_eq]
      exact hall o hmem

/-- Witness for C6 at a concrete two-object registry with a duplicate
identity pair: the first match in load order is returned. -/
theorem claim_lookup_first_match_witness :
    (Lwm2mRegistry.Registry.mk []
        [⟨"A", 3, "urn:a", ⟨1, 0⟩, ⟨1, 0⟩, false, false, []⟩]).has_object_id 3 ⟨1, 0⟩ =
      ((Lwm2mRegistry.Registry.mk []
        [⟨"A", 3, "urn:a", ⟨1, 0⟩, ⟨1, 0⟩, false, false, []⟩]).get_object_by_id 3 ⟨1, 0⟩).isSome :=
  (claim_lookup_first_match (Lwm2mRegistry.Registry.mk []
    [⟨"A", 3, "urn:a", ⟨1, 0⟩, ⟨1, 0⟩, false, false, []⟩]) 3 ⟨1, 0⟩).2.1

/-- C9: every resource-level query inspects only the first object matching
(object_id, object_version): `get_resource_by_id` searches that object's
resource list in declaration order (first match by resource id) and is
absent when the first matching object lacks the resource — even if a later
duplicate object contains it; `get_resource_name`, `get_resource_type`,
`is_resource_multi_instance` and `get_resource_id_by_name` agree with the
same first-object-only search. -/
theorem claim_resource_queries_first_object (r : Lwm2mRegistry.Registry) (oid : Nat)
    (v : Lwm2mRegistry.Version) (rid : Nat) (rname : String) :
    (∀ o, r.get_object_by_id oid v = some o →
      r.get_resource_by_id oid v rid = o.resources.find? (fun x => x.id == rid) ∧
      r.get_resource_id_by_name oid v rname =
        (o.resources.find? (fun x => x.name == rname)).map Lwm2mRegistry.Resource.id) ∧
    (r.get_object_by_id oid v = none →
      r.get_resource_by_id oid v rid = none ∧
      r.get_resource_id_by_name oid v rname = none) ∧
    (∀ res, r.get_resource_by_id oid v rid = some res →
      res.id = rid ∧
      ∃ o, r.get_object_by_id oid v = some o ∧
        ∃ i, ∃ hi : i < o.resources.length, o.resources.get ⟨i, hi⟩ = res ∧
          ∀ j, (hj : j < o.resources.length) → j < i →
            (o.resources.get ⟨j, hj⟩).id ≠ rid) ∧
    (r.get_resource_name oid v rid =
      (r.get_resource_by_id oid v rid).map Lwm2mRegistry.Resource.name) ∧
    (r.get_resource_type oid v rid =
      (r.get_resource_by_id oid v rid).map Lwm2mRegistry.Resource.resource_type) ∧
    (r.is_resource_multi_instance oid v rid =
      (r.get_resource_by_id oid v rid).map Lwm2mRegistry.Resource.has_multiple_instances) ∧
    ((Lwm2mRegistry.Registry.mk []
        [⟨"Dup", 9, "urn:a", ⟨1, 0⟩, ⟨1, 0⟩, false, false, []⟩,
         ⟨"Dup", 9, "urn:b", ⟨1, 0⟩, ⟨1, 0⟩, false, false,
           [⟨4, "R4", Lwm2mRegistry.Operations.Read, false, true,
             Lwm2mRegistry.ResourceType.Integer⟩]⟩]).get_resource_by_id 9 ⟨1, 0⟩ 4 = none) := by
  refine ⟨?_, ?_, ?_, ?_, ?_, ?_, rfl⟩
  · intro o ho
    constructor
    · rw [Lwm2mRegistry.Registry.get_resource_by_id, ho]
    · rw [Lwm2mRegistry.Registry.get_resource_id_by_name, ho]
      show (match o.resources.find? (fun x => x.name == rname) with
        | some res => some res.id
        | none => none) = _
      cases o.resources.find? (fun x => x.name == rname) <;> rfl
  · intro ho
    constructor
    · rw [Lwm2mRegistry.Registry.get_resource_by_id, ho]
    · rw [Lwm2mRegistry.Registry.get_resource_id_by_name, ho]
  · intro res hres
    rw [Lwm2mRegistry.Registry.get_resource_by_id] at hres
    cases ho : r.get_object_by_id oid v with
    | none => rw [ho] at hres; exact Option.noConfusion hres
    | some o =>
      rw [ho] at hres
      have hid := List.find?_some hres
      rw [beq_iff_eq] at hid
      obtain ⟨i, hi, hget, _, hprev⟩ := Lwm2mRegistry.find?_first_index _ _ _ hres
      refine ⟨hid, o, rfl, i, hi, hget, ?_⟩
      intro j hj hlt hcontra
      have hfalse := hprev j hj hlt
      rw [hcontra] at hfalse
      simp at hfalse
  · rw [Lwm2mRegistry.Registry.get_resource_name]
    cases r.get_resource_by_id oid v rid <;> rfl
  · rw [Lwm2mRegistry.Registry.get_resource_type]
    cases r.get_resource_by_id oid v rid <;> rfl
  · rw [Lwm2mRegistry.Registry.is_resource_multi_instance]
    cases r.get_resource_by_id oid v rid <;> rfl

/-- Witness for C9 at a concrete registry: the first matching object holds
resource 7, so the lookup returns it and the name query agrees. -/
theorem claim_resource_queries_first_object_witness :
    (Lwm2mRegistry.Registry.mk []
        [⟨"A", 1, "urn:a", ⟨1, 0⟩, ⟨1, 0⟩, false, false,
          [⟨7, "R7", Lwm2mRegistry.Operations.Write, true, false,
            Lwm2mRegistry.ResourceType.Float⟩]⟩]).get_resource_by_id 1 ⟨1, 0⟩ 7 =
      List.find? (fun x => x.id == 7)
        [⟨7, "R7", Lwm2mRegistry.Operations.Write, true, false,
          Lwm2mRegistry.ResourceType.Float⟩] :=
  ((claim_resource_queries_first_object (Lwm2mRegistry.Registry.mk []
      [⟨"A", 1, "urn:a", ⟨1, 0⟩, ⟨1, 0⟩, false, false,
        [⟨7, "R7", Lwm2mRegistry.Operations.Write, true, false,
          Lwm2mRegistry.ResourceType.Float⟩]⟩]) 1 ⟨1, 0⟩ 7 "R7").1 _ (by rfl)).1

namespace Lwm2mRegistry

/-- The per-entry accumulator update of `loadEntries` appends exactly
`entryObjects`. -/
theorem entryObjects_eq_step (w : World) (entry : DirEntry) (acc : List Object) :
    (if entry.isFile && rustEndsWith entry.path ".xml" then
      match entry.openResult with
      | Except.ok file =>
        match deserialize_spec_file w file with
        | Except.ok spec => acc ++ spec.objects
        | Except.error _ => acc
      | Except.error _ => acc
    else acc) = acc ++ entryObjects w entry := by
  unfold entryObjects
  by_cases hc : (entry.isFile && rustEndsWith entry.path ".xml") = true
  · rw [if_pos hc, if_pos hc]
    cases entry.openResult with
    | error e => simp
    | ok file =>
      show (match deserialize_spec_file w file with
        | Except.ok spec => acc ++ spec.objects
        | Except.error _ => acc) =
        acc ++ (match deserialize_spec_file w file with
        | Except.ok spec => spec.objects
        | Except.error _ => [])
      cases h2 : deserialize_spec_file w file <;> simp
  · rw [if_neg hc, if_neg hc]
    simp

/-- If every traversal entry is ok, the per-directory loop succeeds and
appends each entry's contribution in traversal order. -/
theorem loadEntries_all_ok (w : World) (acc : List Object)
    (es : List (Except String DirEntry))
    (h : ∀ e ∈ es, ∃ entry, e = Except.ok entry) :
    loadEntries w acc es = Except.ok (acc ++ es.flatMap (entryContribution w)) := by
  induction es generalizing acc with
  | nil => simp [loadEntries]
  | cons e rest ih =>
    obtain ⟨entry, he⟩ := h e (List.mem_cons_self e rest)
    subst he
    have hstep : loadEntries w acc (Except.ok entry :: rest) =
        loadEntries w (acc ++ entryObjects w entry) rest := by
      show loadEntries w (if entry.isFile && rustEndsWith entry.path ".xml" then
          match entry.openResult with
          | Except.ok file =>
            match deserialize_spec_file w file with
            | Except.ok spec => acc ++ spec.objects
            | Except.error _ => acc
          | Except.error _ => acc
        else acc) rest = _
      rw [entryObjects_eq_step]
    rw [hstep, ih _ (fun e2 he2 => h e2 (List.mem_cons_of_mem _ he2)),
      List.flatMap_cons, List.append_assoc]
    rfl

/-- A traversal error anywhere in the entry list makes the per-directory
loop return an error. -/
theorem loadEntries_error (w : World) (acc : List Object)
    (es : List (Except String DirEntry)) (err : String)
    (h : Except.error err ∈ es) :
    ∃ err2, loadEntries w acc es = Except.error err2 := by
  induction es generalizing acc with
  | nil => cases h
  | cons e rest ih =>
    cases e with
    | error e0 => exact ⟨e0, rfl⟩
    | ok entry =>
      have hmem : Except.error err ∈ rest := by
        rcases List.mem_cons.mp h with heq | hm
        · exact Except.noConfusion heq
        · exact hm
      obtain ⟨err2, h2⟩ := ih (if entry.isFile && rustEndsWith entry.path ".xml" then
          match entry.openResult with
          | Except.ok file =>
            match deserialize_spec_file w file with
            | Except.ok spec => acc ++ spec.objects
            | Except.error _ => acc
          | Except.error _ => acc
        else acc) hmem
      exact ⟨err2, h2⟩

/-- If every traversal entry of every directory is ok, the outer loop
succeeds with the concatenated contributions. -/
theorem loadDirs_all_ok (w : World) (acc : List Object) (dirs : List String)
    (h : ∀ d ∈ dirs, ∀ e ∈ w.walk d, ∃ entry, e = Except.ok entry) :
    loadDirs w acc dirs = Except.ok (acc ++ dirs.flatMap (fun d =>
      (w.walk d).flatMap (entryContribution w))) := by
  induction dirs generalizing acc with
  | nil => simp [loadDirs]
  | cons d rest ih =>
    have h1 := loadEntries_all_ok w acc (w.walk d) (h d (List.mem_cons_self d rest))
    have hstep : loadDirs w acc (d :: rest) =
        loadDirs w (acc ++ (w.walk d).flatMap (entryContribution w)) rest := by
      show (match loadEntries w acc (w.walk d) with
        | Except.ok acc2 => loadDirs w acc2 rest
        | Except.error e => Except.error e) = _
      rw [h1]
    rw [hstep, ih _ (fun d2 hd2 => h d2 (List.mem_cons_of_mem _ hd2)),
      List.flatMap_cons, List.append_assoc]

/-- A traversal error in any directory makes the whole load return an
error. -/
theorem loadDirs_error (w : World) (acc : List Object) (dirs : List String)
    (h : ∃ d ∈ dirs, ∃ err, Except.error err ∈ w.walk d) :
    ∃ err2, loadDirs w acc dirs = Except.error err2 := by
  induction dirs generalizing acc with
  | nil =>
    obtain ⟨d, hd, _⟩ := h
    cases hd
  | cons d rest ih =>
    by_cases hd : ∃ err, Except.error err ∈ w.walk d
    · obtain ⟨err, herr⟩ := hd
      obtain ⟨err2, h2⟩ := loadEntries_error w acc (w.walk d) err herr
      refine ⟨err2, ?_⟩
      show (match loadEntries w acc (w.walk d) with
        | Except.ok acc2 => loadDirs w acc2 rest
        | Except.error e => Except.error e) = _
      rw [h2]
    · have hrest : ∃ d2 ∈ rest, ∃ err, Except.error err ∈ w.walk d2 := by
        obtain ⟨d2, hd2, herr⟩ := h
        rcases List.mem_cons.mp hd2 with heq | hm
        · subst heq
          exact absurd herr hd
        · exact ⟨d2, hm, herr⟩
      cases hE : loadEntries w acc (w.walk d) with
      | error e =>
        refine ⟨e, ?_⟩
        show (match loadEntries w acc (w.walk d) with
          | Except.ok acc2 => loadDirs w acc2 rest
          | Except.error e2 => Except.error e2) = _
        rw [hE]
      | ok acc2 =>
        obtain ⟨err2, h2⟩ := ih acc2 hrest
        refine ⟨err2, ?_⟩
        show (match loadEntries w acc (w.walk d) with
          | Except.ok acc3 => loadDirs w acc3 rest
          | Except.error e2 => Except.error e2) = _
        rw [hE]
        exact h2

end Lwm2mRegistry

/-- C2: any failure local to a single discovered `.xml` file (open failure,
read/UTF-8 failure, decode failure) makes that file contribute zero objects
while the bulk load continues and still returns ok; any error from the
directory traversal itself aborts the whole load and is returned as an
error. -/
theorem claim_load_failure_policy (w : Lwm2mRegistry.World) (dirs : List String) :
    ((∀ d ∈ dirs, ∀ e ∈ w.walk d, ∃ entry, e = Except.ok entry) →
      Lwm2mRegistry.load w dirs = Except.ok (dirs.flatMap (fun d =>
        (w.walk d).flatMap (Lwm2mRegistry.entryContribution w)))) ∧
    ((∃ d ∈ dirs, ∃ err, Except.error err ∈ w.walk d) →
      ∃ err2, Lwm2mRegistry.load w dirs = Except.error err2) ∧
    (∀ entry err, entry.openResult = Except.error err →
      Lwm2mRegistry.entryObjects w entry = []) ∧
    (∀ entry file err, entry.openResult = Except.ok file →
      Lwm2mRegistry.deserialize_spec_file w file = Except.error err →
      Lwm2mRegistry.entryObjects w entry = []) ∧
    (∀ file err, file.readResult = Except.error err →
      Lwm2mRegistry.deserialize_spec_file w file = Except.error err) ∧
    (∀ file bytes err, file.readResult = Except.ok bytes →
      w.fromUtf8 bytes = Except.error err →
      Lwm2mRegistry.deserialize_spec_file w file = Except.error err) ∧
    (∀ file bytes text err, file.readResult = Except.ok bytes →
      w.fromUtf8 bytes = Except.ok text →
      w.fromXmlStr text = Except.error err →
      Lwm2mRegistry.deserialize_spec_file w file = Except.error err) := by
  refine ⟨?_, ?_, ?_, ?_, ?_, ?_, ?_⟩
  · intro h
    simpa using Lwm2mRegistry.loadDirs_all_ok w [] dirs h
  · intro h
    exact Lwm2mRegistry.loadDirs_error w [] dirs h
  · intro entry err h
    unfold Lwm2mRegistry.entryObjects
    rw [h]
    split <;> rfl
  · intro entry file err h1 h2
    unfold Lwm2mRegistry.entryObjects
    rw [h1]
    show (if entry.isFile && Lwm2mRegistry.rustEndsWith entry.path ".xml" then
      match Lwm2mRegistry.deserialize_spec_file w file with
      | Except.ok spec => spec.objects
      | Except.error _ => []
    else []) = []
    rw [h2]
    split <;> rfl
  · intro file err h
    unfold Lwm2mRegistry.deserialize_spec_file
    rw [h]
  · intro file bytes err h1 h2
    unfold Lwm2mRegistry.deserialize_spec_file
    rw [h1]
    show (match w.fromUtf8 bytes with
      | Except.error e => Except.error e
      | Except.ok text =>
        match w.fromXmlStr text with
        | Except.error e => Except.error e
        | Except.ok item => Except.ok item) = _
    rw [h2]
  · intro file bytes text err h1 h2 h3
    unfold Lwm2mRegistry.deserialize_spec_file
    rw [h1]
    show (match w.fromUtf8 bytes with
      | Except.error e => Except.error e
      | Except.ok text2 =>
        match w.fromXmlStr text2 with
        | Except.error e => Except.error e
        | Except.ok item => Except.ok item) = _
    rw [h2]
    show (match w.fromXmlStr text with
      | Except.error e => Except.error e
      | Except.ok item => Except.ok item) = _
    rw [h3]

/-- Witness for C2: at `sampleWorld` (one unopenable xml file, one good xml
file, one non-xml file) the bulk load succeeds and only the good file
contributes; at `errorWorld` the traversal error aborts the load. -/
theorem claim_load_failure_policy_witness :
    Lwm2mRegistry.load Lwm2mRegistry.sampleWorld ["root"] =
      Except.ok [Lwm2mRegistry.sampleObject] ∧
    ∃ err2, Lwm2mRegistry.load Lwm2mRegistry.errorWorld ["root"] =
      Except.error err2 := by
  constructor
  · have h := (claim_load_failure_policy Lwm2mRegistry.sampleWorld ["root"]).1
      (by
        intro d hd e he
        rcases List.mem_cons.mp hd with heq | hm
        · subst heq
          rw [show Lwm2mRegistry.sampleWorld.walk "root" =
            [Except.ok ⟨"bad.xml", true, Except.error "open failed"⟩,
             Except.ok ⟨"good.xml", true, Except.ok ⟨Except.ok [103]⟩⟩,
             Except.ok ⟨"notes.txt", true, Except.ok ⟨Except.ok [104]⟩⟩] from rfl] at he
          rcases List.mem_cons.mp he with h | he2
          · exact ⟨_, h⟩
          rcases List.mem_cons.mp he2 with h | he3
          · exact ⟨_, h⟩
          rcases List.mem_cons.mp he3 with h | he4
          · exact ⟨_, h⟩
          · cases he4
        · cases hm)
    rw [h]
    rfl
  · exact (claim_load_failure_policy Lwm2mRegistry.errorWorld ["root"]).2.1
      ⟨"root", List.mem_cons_self _ _, "walk error", List.mem_cons_self _ _⟩

/-- C3: `reload` re-runs the document loader over the stored directory
list; on load error it returns that error and the previously stored
collection and directory list are unchanged; on success the stored
collection is replaced wholesale by the newly loaded objects. -/
theorem claim_reload_atomicity (w : Lwm2mRegistry.World) (r : Lwm2mRegistry.Registry) :
    (∀ e, Lwm2mRegistry.load w r.directories = Except.error e →
      Lwm2mRegistry.Registry.reload w r = (r, Except.error e)) ∧
    (∀ objs, Lwm2mRegistry.load w r.directories = Except.ok objs →
      Lwm2mRegistry.Registry.reload w r = (⟨r.directories, objs⟩, Except.ok ())) := by
  constructor
  · intro e he
    unfold Lwm2mRegistry.Registry.reload
    rw [he]
  · intro objs ho
    unfold Lwm2mRegistry.Registry.reload
    rw [ho]

/-- Witness for C3 at concrete worlds: a failed reload returns the
traversal error and leaves the registry untouched; a successful reload
replaces the whole collection. -/
theorem claim_reload_atomicity_witness :
    Lwm2mRegistry.Registry.reload Lwm2mRegistry.errorWorld
        ⟨["root"], [Lwm2mRegistry.sampleObject]⟩ =
      (⟨["root"], [Lwm2mRegistry.sampleObject]⟩, Except.error "walk error") ∧
    Lwm2mRegistry.Registry.reload Lwm2mRegistry.sampleWorld ⟨["root"], []⟩ =
      (⟨["root"], [Lwm2mRegistry.sampleObject]⟩, Except.ok ()) := by
  constructor
  · exact (claim_reload_atomicity Lwm2mRegistry.errorWorld _).1 "walk error" (by rfl)
  · exact (claim_reload_atomicity Lwm2mRegistry.sampleWorld _).2
      [Lwm2mRegistry.sampleObject] (by rfl)

namespace Lwm2mRegistry

/-! ## The sort-then-pop query: `get_object_id_by_name_newest` -/

theorem objVerLe_refl (a : Object) : objVerLe a a := by
  unfold objVerLe
  rw [Version.leb_iff]
  exact Or.inr ⟨rfl, Nat.le_refl _⟩

theorem objVerLe_total (a b : Object) : objVerLe a b ∨ objVerLe b a := by
  unfold objVerLe
  rw [Version.leb_iff, Version.leb_iff]
  omega

theorem objVerLe_trans (a b c : Object) : objVerLe a b → objVerLe b c → objVerLe a c := by
  unfold objVerLe
  rw [Version.leb_iff, Version.leb_iff, Version.leb_iff]
  omega

/-- The last element of `orderedInsert a s` for sorted `s`: the old last
element if `a` does not exceed it, otherwise `a`. -/
theorem getLast?_orderedInsert (a : Object) (s : List Object)
    (hs : List.Sorted objVerLe s) :
    (List.orderedInsert objVerLe a s).getLast? =
      some (match s.getLast? with
        | none => a
        | some c => if objVerLe a c then c else a) := by
  induction s with
  | nil => rfl
  | cons x s2 ih =>
    rw [List.sorted_cons] at hs
    obtain ⟨hx, hs2⟩ := hs
    show (if objVerLe a x then a :: x :: s2
      else x :: List.orderedInsert objVerLe a s2).getLast? = _
    by_cases hax : objVerLe a x
    · rw [if_pos hax, List.getLast?_cons_cons]
      cases hc : (x :: s2).getLast? with
      | none => simp at hc
      | some c =>
        have hmem : c ∈ x :: s2 := by
          have := List.getLast?_eq_getLast (x :: s2) (by simp)
          rw [this] at hc
          injection hc with hc
          rw [← hc]
          exact List.getLast_mem _
        have hac : objVerLe a c := by
          rcases List.mem_cons.mp hmem with heq | hmem2
          · rw [heq]
            exact hax
          · exact objVerLe_trans a x c hax (hx c hmem2)
        show some c = some (if objVerLe a c then c else a)
        rw [if_pos hac]
    · rw [if_neg hax]
      have h3 : (x :: List.orderedInsert objVerLe a s2).getLast? =
          (List.orderedInsert objVerLe a s2).getLast? := by
        cases hoi : List.orderedInsert objVerLe a s2 with
        | nil =>
          have hlen := congrArg List.length hoi
          rw [List.orderedInsert_length] at hlen
          simp at hlen
        | cons y t =>
          rw [List.getLast?_cons_cons]
      rw [h3, ih hs2]
      cases hs2last : s2.getLast? with
      | none =>
        have hs2nil : s2 = [] := by
          cases s2 with
          | nil => rfl
          | cons z t2 =>
            rw [List.getLast?_eq_getLast (z :: t2) (by simp)] at hs2last
            exact Option.noConfusion hs2last
        subst hs2nil
        show some a = some (if objVerLe a x then x else a)
        rw [if_neg hax]
      | some c =>
        have hxs2 : (x :: s2).getLast? = some c := by
          cases s2 with
          | nil => exact Option.noConfusion hs2last
          | cons z t2 =>
            rw [List.getLast?_cons_cons]
            exact hs2last
        rw [hxs2]

/-- Folding `lastMaxAux` from an initial element equals combining the
initial element with the fold of the tail. -/
theorem lastMaxAux_combine (b : Object) (l : List Object) :
    lastMaxAux b l = match lastMax? l with
      | none => b
      | some c => if objVerLe b c then c else b := by
  induction l generalizing b with
  | nil => rfl
  | cons x t ih =>
    cases t with
    | nil =>
      show (if objVerLe b x then x else b) = if objVerLe b x then x else b
      rfl
    | cons y t2 =>
      show lastMaxAux (if objVerLe b x then x else b) (y :: t2) =
        if objVerLe b (lastMaxAux x (y :: t2)) then lastMaxAux x (y :: t2) else b
      rw [ih (if objVerLe b x then x else b)]
      have hx : lastMaxAux x (y :: t2) =
          if objVerLe x (lastMaxAux y t2) then lastMaxAux y t2 else x := by
        rw [ih x]
        exact rfl
      rw [hx]
      show (if objVerLe (if objVerLe b x then x else b) (lastMaxAux y t2)
          then lastMaxAux y t2 else (if objVerLe b x then x else b)) = _
      generalize lastMaxAux y t2 = c
      by_cases hbx : objVerLe b x <;> by_cases hxc : objVerLe x c
      · have hbc : objVerLe b c := objVerLe_trans b x c hbx hxc
        simp [hbx, hxc, hbc]
      · simp [hbx, hxc]
      · simp [hbx, hxc]
      · have hxb : objVerLe x b := (objVerLe_total b x).resolve_left hbx
        have hbc : ¬ objVerLe b c := fun hbc => hxc (objVerLe_trans x b c hxb hbc)
        simp [hbx, hxc, hbc]

/-- The last element of the stable ascending sort is the running
replace-on-tie maximum. -/
theorem getLast?_insertionSort (l : List Object) :
    (List.insertionSort objVerLe l).getLast? = lastMax? l := by
  induction l with
  | nil => rfl
  | cons b t ih =>
    show (List.orderedInsert objVerLe b (List.insertionSort objVerLe t)).getLast? = _
    rw [getLast?_orderedInsert b _
      (@List.sorted_insertionSort Object objVerLe _ ⟨objVerLe_total⟩ ⟨objVerLe_trans⟩ t), ih]
    show some (match lastMax? t with
      | none => b
      | some c => if objVerLe b c then c else b) = some (lastMaxAux b t)
    rw [lastMaxAux_combine b t]

theorem lastMaxAux_mem (b : Object) (l : List Object) : lastMaxAux b l ∈ b :: l := by
  induction l generalizing b with
  | nil => simp [lastMaxAux]
  | cons x t ih =>
    show lastMaxAux (if objVerLe b x then x else b) t ∈ b :: x :: t
    have h := ih (if objVerLe b x then x else b)
    rcases List.mem_cons.mp h with heq | hmem
    · rw [heq]
      by_cases hbx : objVerLe b x <;> simp [hbx]
    · exact List.mem_cons_of_mem _ (List.mem_cons_of_mem _ hmem)

theorem lastMaxAux_max (b : Object) (l : List Object) :
    ∀ o ∈ b :: l, objVerLe o (lastMaxAux b l) := by
  induction l generalizing b with
  | nil =>
    intro o ho
    rcases List.mem_cons.mp ho with heq | h
    · rw [heq]
      exact objVerLe_refl b
    · cases h
  | cons x t ih =>
    intro o ho
    show objVerLe o (lastMaxAux (if objVerLe b x then x else b) t)
    have hb : objVerLe b (if objVerLe b x then x else b) := by
      by_cases hbx : objVerLe b x
      · rw [if_pos hbx]
        exact hbx
      · rw [if_neg hbx]
        exact objVerLe_refl b
    have hx : objVerLe x (if objVerLe b x then x else b) := by
      by_cases hbx : objVerLe b x
      · rw [if_pos hbx]
        exact objVerLe_refl x
      · rw [if_neg hbx]
        exact (objVerLe_total b x).resolve_left hbx
    have hstep := ih (if objVerLe b x then x else b)
    rcases List.mem_cons.mp ho with heq | ho2
    · rw [heq]
      exact objVerLe_trans _ _ _ hb (hstep _ (List.mem_cons_self _ _))
    rcases List.mem_cons.mp ho2 with heq | ho3
    · rw [heq]
      exact objVerLe_trans _ _ _ hx (hstep _ (List.mem_cons_self _ _))
    · exact hstep o (List.mem_cons_of_mem _ ho3)

/-- `objVerLe` only depends on the version component. -/
theorem objVerLe_congr_right (a b c : Object)
    (h : b.object_version = c.object_version) (hle : objVerLe a b) : objVerLe a c := by
  unfold objVerLe at hle ⊢
  rw [← h]
  exact hle

/-- Among the elements carrying the maximal version, the fold result is the
last one in original order. -/
theorem lastMaxAux_filter_getLast (b : Object) (l : List Object) :
    ((b :: l).filter
      (fun m => m.object_version == (lastMaxAux b l).object_version)).getLast? =
      some (lastMaxAux b l) := by
  induction l generalizing b with
  | nil =>
    show ([b].filter (fun m => m.object_version == b.object_version)).getLast? = some b
    simp
  | cons x t ih =>
    by_cases hbx : objVerLe b x
    · have hm : lastMaxAux b (x :: t) = lastMaxAux x t := by
        show lastMaxAux (if objVerLe b x then x else b) t = _
        rw [if_pos hbx]
      rw [hm]
      have hrest := ih x
      rw [List.filter_cons]
      by_cases hpb : (b.object_version == (lastMaxAux x t).object_version) = true
      · rw [if_pos hpb]
        cases hr : (x :: t).filter
            (fun m => m.object_version == (lastMaxAux x t).object_version) with
        | nil =>
          rw [hr] at hrest
          exact Option.noConfusion hrest
        | cons z zs =>
          rw [hr] at hrest
          rw [List.getLast?_cons_cons]
          exact hrest
      · rw [if_neg hpb]
        exact hrest
    · have hm : lastMaxAux b (x :: t) = lastMaxAux b t := by
        show lastMaxAux (if objVerLe b x then x else b) t = _
        rw [if_neg hbx]
      rw [hm]
      have hrest := ih b
      have hbm : objVerLe b (lastMaxAux b t) := lastMaxAux_max b t b (List.mem_cons_self b t)
      have hpx : (x.object_version == (lastMaxAux b t).object_version) = false := by
        rw [beq_eq_false_iff_ne]
        intro hv
        exact hbx (objVerLe_congr_right b (lastMaxAux b t) x hv.symm hbm)
      rw [List.filter_cons] at hrest ⊢
      rw [List.filter_cons, hpx]
      simp only [Bool.false_eq_true, if_false]
      exact hrest

end Lwm2mRegistry

/-- C5: `get_object_id_by_name_newest` considers exactly the objects whose
name equals the given name; with no match it returns none; otherwise it
returns the (id, version) of a match of maximal version, and among the
matches sharing that maximal version the returned entry is the last in
collection order (stable sort by version, then pop from the end).  In
particular, with entries for the same name at versions (1,1) and (1,2) it
returns the id paired with (1,2). -/
theorem claim_newest_by_name (r : Lwm2mRegistry.Registry) (name : String) :
    (r.objects.filter (fun o => o.name == name) = [] →
      r.get_object_id_by_name_newest name = none) ∧
    (∀ b l, r.objects.filter (fun o => o.name == name) = b :: l →
      ∃ o ∈ b :: l,
        r.get_object_id_by_name_newest name = some (o.object_id, o.object_version) ∧
        (∀ o2 ∈ b :: l, Lwm2mRegistry.Version.leb o2.object_version o.object_version = true) ∧
        ((b :: l).filter
          (fun m => m.object_version == o.object_version)).getLast? = some o) ∧
    ((Lwm2mRegistry.Registry.mk []
        [⟨"X", 5, "urn:x", ⟨1, 1⟩, ⟨1, 0⟩, false, false, []⟩,
         ⟨"X", 7, "urn:y", ⟨1, 2⟩, ⟨1, 0⟩, false, false, []⟩]).get_object_id_by_name_newest
        "X" = some (7, ⟨1, 2⟩)) := by
  refine ⟨?_, ?_, by rfl⟩
  · intro h
    show (match (List.insertionSort Lwm2mRegistry.objVerLe
        (r.objects.filter (fun o => o.name == name))).getLast? with
      | some obj => some (obj.object_id, obj.object_version)
      | none => none) = none
    rw [h]
    rfl
  · intro b l hbl
    refine ⟨Lwm2mRegistry.lastMaxAux b l, Lwm2mRegistry.lastMaxAux_mem b l, ?_, ?_, ?_⟩
    · show (match (List.insertionSort Lwm2mRegistry.objVerLe
          (r.objects.filter (fun o => o.name == name))).getLast? with
        | some obj => some (obj.object_id, obj.object_version)
        | none => none) = _
      rw [hbl, Lwm2mRegistry.getLast?_insertionSort]
      exact rfl
    · intro o2 ho2
      exact Lwm2mRegistry.lastMaxAux_max b l o2 ho2
    · exact Lwm2mRegistry.lastMaxAux_filter_getLast b l

/-- Witness for C5: an empty registry has no match for the name, so the
query returns none. -/
theorem claim_newest_by_name_witness :
    (Lwm2mRegistry.Registry.mk [] []).get_object_id_by_name_newest "Z" = none :=
  (claim_newest_by_name (Lwm2mRegistry.Registry.mk [] []) "Z").1 (by rfl)
